import Mathlib

/-!
Shallow embedding of the taglib-simple native extension
(`ext/taglib_ruby_fileref`, `ext/taglib_simple_fileref`): the Ruby-IO-backed
TagLib stream adapter, the Ruby ↔ TagLib value marshalling engine, and the
FileRef property projections, together with theorems checking the
specification's claims against these definitions.

Machine data is modelled with `Nat` bytes (0 ≤ b < 256 is not needed by any
claim, so bytes are plain naturals), Ruby strings as byte lists tagged with a
Ruby encoding, and TagLib strings as the byte content handed to the
`TagLib::String` constructor together with the `TagLib::String::Type` tag
given there.
-/

/-- Ruby encoding of a Ruby string, as distinguished by the pointer
comparisons in `convert_ruby_to_taglib.cpp` (`rb_enc_get` against the cached
encodings); every encoding not explicitly compared falls into `other`. -/
inductive REnc where
  | utf8
  | ascii8bit
  | usascii
  | latin1
  | utf16le
  | utf16be
  | utf16
  | other
deriving DecidableEq, Repr

/-- Source `TagLib::String::Type` encoding tags. -/
inductive TEnc where
  | latin1
  | utf8
  | utf16
  | utf16le
  | utf16be
deriving DecidableEq, Repr

/-- A Ruby string at the marshalling boundary: raw byte content plus its
Ruby encoding tag. -/
structure RubyString where
  bytes : List Nat
  enc : REnc
deriving DecidableEq, Repr

/-- A `TagLib::String` as observable at the extension boundary: for strings
the extension constructs, `bytes` is the byte content passed to the
constructor and `enc` the `TagLib::String::Type` passed with it; for strings
coming out of the TagLib library, `bytes` is the UTF-8 view `to8Bit(true)`
returns (so `length() == 0` coincides with `bytes = []`) and `enc` is
`utf8`. -/
structure TLStr where
  bytes : List Nat
  enc : TEnc
deriving DecidableEq, Repr

/-- Source `c_str()` on a Ruby string: C-string reading stops at the first NUL
byte, so constructors taking only a `char *` see the bytes up to (and
excluding) the first zero byte. -/
def cstr (bytes : List Nat) : List Nat :=
  bytes.takeWhile (fun b => b ≠ 0)

/-- The Ruby dynamic values the marshalling engine dispatches on:
nil, booleans, integers, strings, arrays, hashes, and a representative for
every other Ruby object (which the variant conversion maps to an empty
variant). Hashes are insertion-ordered association lists, the order Ruby
hash iteration delivers. -/
inductive RValue where
  | nil
  | rbool (b : Bool)
  | int (n : Int)
  | str (s : RubyString)
  | arr (items : List RValue)
  | hash (entries : List (RubyString × RValue))
  | other
deriving Repr

/-- Source `TagLib::Variant`: the typed tagged-union value model. -/
inductive Variant where
  | empty
  | vbool (b : Bool)
  | vint (n : Int)
  | vuint (n : Nat)
  | vlonglong (n : Int)
  | vulonglong (n : Nat)
  | vstring (s : TLStr)
  | vbytes (b : List Nat)
  | vstringList (l : List TLStr)
  | vbyteVectorList (l : List (List Nat))
  | vvariantList (l : List Variant)
  | vvariantMap (m : List (TLStr × Variant))
deriving Repr

/-- Ruby-side exceptions raised by the extension. -/
inductive RubyError where
  | keyError (k : String)
  | typeError
  | rangeError
  | frozenError
  | invalidHandle
  | argError
deriving DecidableEq, Repr

/-! ## The wrapped Ruby IO resource

`IOStream.cpp` drives the wrapped Ruby IO object only through `read`,
`write`, `seek`, `tell`, `truncate`, `closed?` and (at construction)
`writable?`.  The resource is modelled as a byte list plus a position, with
the Ruby file semantics of those primitives: `read` with no argument
returns everything from the current position (the empty string at or past
end-of-file, never nil), `write` overwrites in place extending the content
as needed (zero-filling any gap when positioned past the end), and
`truncate` cuts or zero-extends the content to the requested length without
moving the position. -/
structure RStream where
  content : List Nat
  pos : Nat
deriving DecidableEq, Repr

/-- Ruby `io.read` (no length argument): everything from the current
position, positioning at end-of-file. -/
def RStream.readAll (s : RStream) : List Nat × RStream :=
  (s.content.drop s.pos, { s with pos := max s.pos s.content.length })

/-- Ruby `io.write data`. -/
def RStream.write (s : RStream) (data : List Nat) : RStream :=
  { content :=
      s.content.take s.pos ++ List.replicate (s.pos - s.content.length) 0
        ++ data ++ s.content.drop (s.pos + data.length),
    pos := s.pos + data.length }

/-- Ruby `io.seek off, IO::SEEK_SET`. -/
def RStream.seekSet (s : RStream) (off : Nat) : RStream :=
  { s with pos := off }

/-- Ruby `io.truncate n` (`File#truncate`): does not move the position. -/
def RStream.truncate (s : RStream) (n : Nat) : RStream :=
  { content := s.content.take n ++ List.replicate (n - s.content.length) 0,
    pos := s.pos }

/-- Source `IOStream::insert(data, start, replace)` from `IOStream.cpp`:
seek to `start`; only when `replace > 0` seek a further `replace` bytes and
read the remainder (when `replace == 0` the local `remainder` stays the
default-constructed empty — not nil — Ruby string); seek back to `start`;
write `data`; write the remainder (it is never nil: `read` with no argument
returns `""` at end-of-file); truncate to
`start + data.size + remainder.length`. -/
def IOStream.insert (s : RStream) (data : List Nat) (start replace : Nat) : RStream :=
  let s1 := s.seekSet start
  let step :=
    if replace > 0 then
      let sa := s1.seekSet (s1.pos + replace)
      sa.readAll
    else
      (([] : List Nat), s1)
  let rem := step.1
  let s2 := step.2
  let s3 := s2.seekSet start
  let s4 := s3.write data
  let s5 := s4.write rem
  s5.truncate (start + data.length + rem.length)

/-- Source `IOStream::removeBlock(start, length)` from `IOStream.cpp`: seek to
`start + length`, read the remainder, seek back to `start`, write the
remainder back, truncate to `start + remainder.length`. -/
def IOStream.removeBlock (s : RStream) (start len : Nat) : RStream :=
  let s1 := s.seekSet (start + len)
  let step := s1.readAll
  let rem := step.1
  let s2 := step.2
  let s3 := s2.seekSet start
  let s4 := s3.write rem
  s4.truncate (start + rem.length)

/-- The splice result the specification describes for
`insert(data, startOffset, replaceLength)`: the bytes at
`[start, start + replace)` replaced by `data`, everything after them
shifted. -/
def specSplice (content data : List Nat) (start replace : Nat) : List Nat :=
  content.take start ++ data ++ content.drop (start + replace)

/-! ## IOStream construction and `readOnly` -/

/-- The part of the wrapped Ruby object the `IOStream` constructor queries:
whether it responds to `writable?` and, if so, whether that call returns a
truthy value. -/
structure RubyIOResource where
  respondsToWritable : Bool
  writableResult : Bool
deriving DecidableEq, Repr

/-- Adapter state established by the `IOStream` constructor. -/
structure IOStreamState where
  openReadOnly : Bool
deriving DecidableEq, Repr

/-- The `IOStream` constructor from `IOStream.cpp`:
`openReadOnly = ruby_io.respond_to("writable?") && ruby_io.call("writable?").test()`. -/
def IOStream.init (r : RubyIOResource) : IOStreamState :=
  { openReadOnly := r.respondsToWritable && r.writableResult }

/-- Source `IOStream::readOnly()`: returns the cached `openReadOnly` member. -/
def IOStream.readOnly (st : IOStreamState) : Bool :=
  st.openReadOnly

/-- The specification's notion for C3, in the spec's words: the resource
"declares itself writable" when it responds to `writable?` and that call
returns a truthy value (per the constructor comment, only such resources
are considered writable). -/
def spec_declaredWritable (r : RubyIOResource) : Bool :=
  r.respondsToWritable && r.writableResult

/-! ## Marshalling engine: dynamic (Ruby) → typed (TagLib) -/

/-- Source `isBinaryEncoding` from `convert_ruby_to_taglib.cpp`: the string's
encoding is `ASCII-8BIT` (Ruby's binary encoding). -/
def isBinaryEncoding (s : RubyString) : Bool :=
  s.enc = REnc.ascii8bit

/-- Source `rubyStringToTaglibVariant`: a binary string becomes a `ByteVector`
(constructed with explicit length, so all bytes are kept); any other
encoding is assumed UTF-8 and becomes a `TagLib::String` constructed from
`c_str()` with the `UTF8` tag. -/
def rubyStringToTaglibVariant (s : RubyString) : Variant :=
  if isBinaryEncoding s then
    Variant.vbytes s.bytes
  else
    Variant.vstring ⟨cstr s.bytes, TEnc.utf8⟩

/-- Source `rubyStringToTagLibString`: dispatch on the Ruby string's encoding.
UTF-8, ASCII-8BIT and US-ASCII pass through tagged `UTF8`; ISO-8859-1 is
tagged `Latin1`; UTF-16LE/UTF-16BE are tagged `UTF16LE`/`UTF16BE`; every
other encoding (including generic UTF-16) is first exported to UTF-8 by the
Ruby runtime (`rb_str_export_to_enc`, abstracted as the `transcode`
parameter) and tagged `UTF8`. All constructions go through `c_str()`. -/
def rubyStringToTagLibString (transcode : List Nat → REnc → List Nat)
    (s : RubyString) : TLStr :=
  match s.enc with
  | REnc.utf8 => ⟨cstr s.bytes, TEnc.utf8⟩
  | REnc.ascii8bit => ⟨cstr s.bytes, TEnc.utf8⟩
  | REnc.usascii => ⟨cstr s.bytes, TEnc.utf8⟩
  | REnc.latin1 => ⟨cstr s.bytes, TEnc.latin1⟩
  | REnc.utf16le => ⟨cstr s.bytes, TEnc.utf16le⟩
  | REnc.utf16be => ⟨cstr s.bytes, TEnc.utf16be⟩
  | e => ⟨cstr (transcode s.bytes e), TEnc.utf8⟩

/-- Source `rubyStringOrNilToTagLibString`: nil becomes the empty UTF-8 string;
a string goes through `rubyStringToTagLibString`; anything else raises a
TypeError in the Rice string conversion (modelled as `none`). -/
def rubyStringOrNilToTagLibString (transcode : List Nat → REnc → List Nat)
    (v : RValue) : Option TLStr :=
  match v with
  | RValue.nil => some ⟨[], TEnc.utf8⟩
  | RValue.str s => some (rubyStringToTagLibString transcode s)
  | _ => none

/-- Source `rubyIntegerOrNilToUInt`: nil becomes 0, an integer goes through
`NUM2UINT` (which raises a RangeError outside the unsigned 32-bit range,
modelled as `none`), anything else raises (also `none`). -/
def rubyIntegerOrNilToUInt (v : RValue) : Option Nat :=
  match v with
  | RValue.nil => some 0
  | RValue.int n => if 0 ≤ n ∧ n < 2 ^ 32 then some n.toNat else none
  | _ => none

/-- Source `rubyArrayToTagLibStringList`: every element is read as a Ruby string
(a non-string raises, modelled as `none`) and appended as a
`TagLib::String` built from `c_str()` with the `UTF8` tag. -/
def rubyArrayToTagLibStringList (items : List RValue) : Option (List TLStr) :=
  items.mapM fun v =>
    match v with
    | RValue.str s => some (⟨cstr s.bytes, TEnc.utf8⟩ : TLStr)
    | _ => none

/-- Source `rubyArrayToTagLibByteVectorList`: every element is read as a Ruby
string and appended as a `ByteVector` built with explicit length (all bytes
kept). -/
def rubyArrayToTagLibByteVectorList (items : List RValue) : Option (List (List Nat)) :=
  items.mapM fun v =>
    match v with
    | RValue.str s => some s.bytes
    | _ => none

mutual

/-- Source `rubyObjectToTagLibVariant`: nil → empty variant; Integer → `NUM2LL`
(signed 64-bit, RangeError outside that range modelled as `none`); String →
`rubyStringToTaglibVariant`; Array → `rubyArrayToTagLibVariant`; Hash →
`rubyHashToTagLibVariantMap`; true/false → boolean; anything else → empty
variant. -/
def rubyObjectToTagLibVariant : RValue → Option Variant
  | RValue.nil => some Variant.empty
  | RValue.int n =>
      if -(2 ^ 63 : Int) ≤ n ∧ n < 2 ^ 63 then some (Variant.vlonglong n) else none
  | RValue.str s => some (rubyStringToTaglibVariant s)
  | RValue.arr items => rubyArrayToTagLibVariant items
  | RValue.hash entries => (rubyHashToTagLibVariantMap entries).map Variant.vvariantMap
  | RValue.rbool b => some (Variant.vbool b)
  | RValue.other => some Variant.empty
termination_by v => (sizeOf v, 0)

/-- Source `rubyArrayToTagLibVariant`: an empty array becomes the empty variant;
otherwise only the first element decides the list type — a binary-encoded
first string makes the whole array a `ByteVectorList`, any other first
string makes it a `StringList`, and any other first element makes it a
`List<Variant>` with every element converted independently. -/
def rubyArrayToTagLibVariant : List RValue → Option Variant
  | [] => some Variant.empty
  | first :: rest =>
    match first with
    | RValue.str s =>
        if isBinaryEncoding s then
          (rubyArrayToTagLibByteVectorList (RValue.str s :: rest)).map Variant.vbyteVectorList
        else
          (rubyArrayToTagLibStringList (RValue.str s :: rest)).map Variant.vstringList
    | f => (rubyVariantListAux (f :: rest)).map Variant.vvariantList
termination_by l => (sizeOf l, 1)

/-- Element-wise conversion loop of `rubyArrayToTagLibVariant`'s
`List<Variant>` branch. -/
def rubyVariantListAux : List RValue → Option (List Variant)
  | [] => some []
  | v :: vs => do
      let hd ← rubyObjectToTagLibVariant v
      let tl ← rubyVariantListAux vs
      pure (hd :: tl)
termination_by l => (sizeOf l, 0)

/-- Source `rubyHashToTagLibVariantMap`: each key is read as a Ruby string and
turned into a `TagLib::String` via `c_str()` (default `Latin1` tag of the
`TagLib::String(const char*)` constructor); each value is converted
recursively. -/
def rubyHashToTagLibVariantMap : List (RubyString × RValue) → Option (List (TLStr × Variant))
  | [] => some []
  | (k, v) :: rest => do
      let hv ← rubyObjectToTagLibVariant v
      let tl ← rubyHashToTagLibVariantMap rest
      pure ((⟨cstr k.bytes, TEnc.latin1⟩, hv) :: tl)
termination_by m => (sizeOf m, 0)

end

/-! ## Marshalling engine: typed (TagLib) → dynamic (Ruby) -/

/-- Source `tagLibStringToRubyUTF8String`: `to8Bit(true)` (the UTF-8 byte view)
wrapped as a Ruby string associated with the UTF-8 encoding. -/
def tagLibStringToRubyUTF8String (s : TLStr) : RubyString :=
  ⟨s.bytes, REnc.utf8⟩

/-- Source `tagLibStringToNonEmptyRubyUTF8String`: a zero-length `TagLib::String`
becomes nil, any other becomes a UTF-8 Ruby string. -/
def tagLibStringToNonEmptyRubyUTF8String (s : TLStr) : RValue :=
  if s.bytes.length = 0 then RValue.nil
  else RValue.str (tagLibStringToRubyUTF8String s)

/-- Source `uintToNonZeroRubyInteger`: zero becomes nil, any other unsigned value
becomes a Ruby integer. -/
def uintToNonZeroRubyInteger (n : Nat) : RValue :=
  if n = 0 then RValue.nil else RValue.int n

/-- Source `tagLibByteVectorToRuby`: the raw bytes as a Ruby string associated
with the binary (`ASCII-8BIT`) encoding. -/
def tagLibByteVectorToRuby (b : List Nat) : RubyString :=
  ⟨b, REnc.ascii8bit⟩

/-- Source `tagLibStringListToRuby`: each string converted to a UTF-8 Ruby
string. -/
def tagLibStringListToRuby (l : List TLStr) : List RubyString :=
  l.map tagLibStringToRubyUTF8String

/-- Source `tagLibByteVectorListToRuby`: each byte vector converted to a binary
Ruby string. -/
def tagLibByteVectorListToRuby (l : List (List Nat)) : List RubyString :=
  l.map tagLibByteVectorToRuby

mutual

/-- Source `taglibVariantToRuby`: the variant-type switch of
`convert_taglib_to_ruby.cpp`; the default case (including the empty
variant) is Qnil. -/
def taglibVariantToRuby : Variant → RValue
  | Variant.vbool b => RValue.rbool b
  | Variant.vint n => RValue.int n
  | Variant.vuint n => RValue.int n
  | Variant.vlonglong n => RValue.int n
  | Variant.vulonglong n => RValue.int n
  | Variant.vstring s => RValue.str (tagLibStringToRubyUTF8String s)
  | Variant.vstringList l => RValue.arr ((tagLibStringListToRuby l).map RValue.str)
  | Variant.vbytes b => RValue.str (tagLibByteVectorToRuby b)
  | Variant.vbyteVectorList l => RValue.arr ((tagLibByteVectorListToRuby l).map RValue.str)
  | Variant.vvariantList l => RValue.arr (taglibVariantListToRuby l)
  | Variant.vvariantMap m => RValue.hash (taglibVariantMapToRuby m)
  | Variant.empty => RValue.nil
termination_by v => (sizeOf v, 0)

/-- Source `taglibVariantListToRuby`: element-wise conversion. -/
def taglibVariantListToRuby : List Variant → List RValue
  | [] => []
  | v :: vs => taglibVariantToRuby v :: taglibVariantListToRuby vs
termination_by l => (sizeOf l, 1)

/-- Source `taglibVariantMapToRuby`: each key through `toCString()` into a Ruby
string (created from a C string, hence `ASCII-8BIT`), each value converted
recursively. -/
def taglibVariantMapToRuby : List (TLStr × Variant) → List (RubyString × RValue)
  | [] => []
  | (k, v) :: rest =>
      (⟨cstr k.bytes, REnc.ascii8bit⟩, taglibVariantToRuby v) :: taglibVariantMapToRuby rest
termination_by m => (sizeOf m, 1)

end

/-- Source `tagLibComplexPropertyToRuby`: each `VariantMap` record converted to a
Ruby hash entry list. -/
def tagLibComplexPropertyToRuby (l : List (List (TLStr × Variant))) :
    List (List (RubyString × RValue)) :=
  l.map taglibVariantMapToRuby

/-! ## Frozen property hash (`tagLibPropertyMapToRubyHash`) -/

/-- A Ruby array of strings carrying its frozen flag. -/
structure RArray where
  items : List RubyString
  frozen : Bool
deriving DecidableEq, Repr

/-- A Ruby hash from strings to string arrays carrying its frozen flag. -/
structure RHash where
  entries : List (RubyString × RArray)
  frozen : Bool
deriving DecidableEq, Repr

/-- Modelled from the spec: the host runtime's frozen-object semantics —
mutating a frozen Array (`push`) raises a FrozenError instead of altering
it. The runtime behaviour itself is outside `src/`; only the `freeze`
calls are in the extension. -/
def RArray.push (a : RArray) (v : RubyString) : Except RubyError RArray :=
  if a.frozen then Except.error RubyError.frozenError
  else Except.ok { a with items := a.items ++ [v] }

/-- Modelled from the spec: the host runtime's frozen-object semantics —
storing into a frozen Hash raises a FrozenError instead of altering it. -/
def RHash.store (h : RHash) (k : RubyString) (v : RArray) : Except RubyError RHash :=
  if h.frozen then Except.error RubyError.frozenError
  else Except.ok { h with entries := h.entries ++ [(k, v)] }

/-- Source `tagLibPropertyMapToRubyHash`: for each property-map entry the key
becomes a UTF-8 Ruby string and the value list a Ruby array of UTF-8
strings which is frozen before being stored; the hash itself is frozen
before being returned. -/
def tagLibPropertyMapToRubyHash (pm : List (TLStr × List TLStr)) : RHash :=
  { entries :=
      pm.map fun p =>
        (tagLibStringToRubyUTF8String p.1,
         { items := p.2.map tagLibStringToRubyUTF8String, frozen := true }),
    frozen := true }

/-! ## Property projections (`FileRef.cpp`) -/

/-- TagLib's simple property map at the extension boundary: string keys to
string lists, association-list ordered. -/
abbrev PropertyMap := List (TLStr × List TLStr)

/-- Source `TagLib::PropertyMap::replace(key, values)` at the boundary: the key's
previous binding is removed and the new value list bound. -/
def PropertyMap.replaceKey (pm : PropertyMap) (k : TLStr) (v : List TLStr) : PropertyMap :=
  pm.filter (fun e => decide (e.1 ≠ k)) ++ [(k, v)]

/-- Source `TagLib::PropertyMap::removeEmpty()` at the boundary: every key bound
to an empty list is removed. -/
def PropertyMap.removeEmpty (pm : PropertyMap) : PropertyMap :=
  pm.filter fun e => !e.2.isEmpty

/-- Source `rubyObjectToTagLibStringList`: an Array appends each element read as a
Ruby string (non-strings raise, modelled `none`) via the
`TagLib::String(const char*)` constructor (default `Latin1` tag); a String
appends itself the same way; anything else raises in the Rice string
conversion. -/
def rubyObjectToTagLibStringList (v : RValue) : Option (List TLStr) :=
  match v with
  | RValue.arr items =>
      items.mapM fun it =>
        match it with
        | RValue.str s => some (⟨cstr s.bytes, TEnc.latin1⟩ : TLStr)
        | _ => none
  | RValue.str s => some [⟨cstr s.bytes, TEnc.latin1⟩]
  | _ => none

/-- Source `FileRef::mergeProperties` up to the `setProperties` call: start from
the current map (or empty when `replace_all`), `replace` each update key's
binding with the converted string list, then `removeEmpty()`; the returned
map is what is handed to `file()->setProperties`. A conversion failure
(`none`) models the Ruby exception propagating. -/
def FileRef.mergeProperties (transcode : List Nat → REnc → List Nat)
    (current : PropertyMap) (updates : List (RubyString × RValue))
    (replaceAll : Bool) : Option PropertyMap :=
  let base : PropertyMap := if replaceAll then [] else current
  (updates.foldlM
      (fun pm kv =>
        (rubyObjectToTagLibStringList kv.2).map
          (PropertyMap.replaceKey pm (rubyStringToTagLibString transcode kv.1)))
      base).map
    PropertyMap.removeEmpty

/-! ## Tag field merge (`FileRef::mergeTagProperties`) -/

/-- The seven scalar tag fields of `TagLib::Tag` as held by the library
handle. -/
structure AudioTag where
  title : TLStr
  artist : TLStr
  album : TLStr
  genre : TLStr
  comment : TLStr
  year : Nat
  track : Nat
deriving DecidableEq, Repr

/-- One iteration of the `mergeTagProperties` key dispatch, in source
order (title, artist, album, comment, genre, year, track): a recognized
key converts its value and sets the single field; any other key raises
`KeyError`. -/
def setTagField (transcode : List Nat → REnc → List Nat) (t : AudioTag)
    (k : String) (v : RValue) : Except RubyError AudioTag :=
  if k = "title" then
    match rubyStringOrNilToTagLibString transcode v with
    | some s => Except.ok { t with title := s }
    | none => Except.error RubyError.typeError
  else if k = "artist" then
    match rubyStringOrNilToTagLibString transcode v with
    | some s => Except.ok { t with artist := s }
    | none => Except.error RubyError.typeError
  else if k = "album" then
    match rubyStringOrNilToTagLibString transcode v with
    | some s => Except.ok { t with album := s }
    | none => Except.error RubyError.typeError
  else if k = "comment" then
    match rubyStringOrNilToTagLibString transcode v with
    | some s => Except.ok { t with comment := s }
    | none => Except.error RubyError.typeError
  else if k = "genre" then
    match rubyStringOrNilToTagLibString transcode v with
    | some s => Except.ok { t with genre := s }
    | none => Except.error RubyError.typeError
  else if k = "year" then
    match rubyIntegerOrNilToUInt v with
    | some n => Except.ok { t with year := n }
    | none => Except.error RubyError.rangeError
  else if k = "track" then
    match rubyIntegerOrNilToUInt v with
    | some n => Except.ok { t with track := n }
    | none => Except.error RubyError.rangeError
  else
    Except.error (RubyError.keyError k)

/-- Source `FileRef::mergeTagProperties`: iterate the update hash in insertion
order applying each field assignment in turn; a raised error aborts the
loop but the assignments already made stay applied (the returned tag is
the tag as mutated so far, paired with the error if one was raised). -/
def FileRef.mergeTagProperties (transcode : List Nat → REnc → List Nat)
    (t : AudioTag) : List (String × RValue) → AudioTag × Option RubyError
  | [] => (t, none)
  | (k, v) :: rest =>
    match setTagField transcode t k v with
    | Except.ok t2 => FileRef.mergeTagProperties transcode t2 rest
    | Except.error e => (t, some e)

/-- The recognized closed key set of `mergeTagProperties`. -/
def isTagKey (k : String) : Bool :=
  ["title", "artist", "album", "comment", "genre", "year", "track"].contains k

/-- Sequential application of recognized tag updates (the spec-side
description of what the entries before an offending key do): `none` when
some entry is unrecognized or its value fails to convert. -/
def applyTagUpdates (transcode : List Nat → REnc → List Nat) (t : AudioTag)
    (l : List (String × RValue)) : Option AudioTag :=
  l.foldlM (fun acc kv => (setTagField transcode acc kv.1 kv.2).toOption) t

/-! ## The FileRef wrapper handle (`FileRef.cpp` state machine) -/

/-- The audio-properties record fields read by `FileRef::audioProperties`. -/
structure AudioPropertiesData where
  lengthInMilliseconds : Int
  bitrate : Int
  sampleRate : Int
  channels : Int
deriving DecidableEq, Repr

/-- The Ruby `TagLib::AudioTag` record built by `FileRef::tag`, fields in
construction order. -/
structure RubyAudioTag where
  title : RValue
  artist : RValue
  album : RValue
  genre : RValue
  year : RValue
  track : RValue
  comment : RValue
deriving Repr

/-- What the parsed TagLib handle holds, at the boundary the wrapper
touches: the scalar tag, the simple property map, the complex properties,
the optional audio properties, and the file's read-only flag. -/
structure FileData where
  tag : AudioTag
  props : PropertyMap
  complexProps : List (TLStr × List (List (TLStr × Variant)))
  audioProps : Option AudioPropertiesData
  fileReadOnly : Bool
deriving Repr

/-- The wrapper object's state: the owned `TagLib::FileRef` handle (none
when closed or failed to parse) and the owned stream adapter. -/
structure FileRefState where
  fileRef : Option FileData
  stream : Option Unit
deriving Repr

/-- Source `FileRef::isValid`: the handle is non-null. -/
def FileRef.isValid (s : FileRefState) : Bool :=
  s.fileRef.isSome

/-- Source `FileRef::close`: when the handle is non-null, replace it by a fresh
null `TagLib::FileRef` and reset the owned stream (the caller's IO object
is never closed). -/
def FileRef.close (s : FileRefState) : FileRefState :=
  if s.fileRef.isSome then { fileRef := none, stream := none } else s

/-- Source `FileRef::raiseInvalid`: raise `TagLib::Error` unless the handle is
valid. -/
def FileRef.raiseInvalid (s : FileRefState) : Except RubyError Unit :=
  if FileRef.isValid s then Except.ok () else Except.error RubyError.invalidHandle

/-- The `raiseInvalid(); …then touch the handle…` pattern every accessor
follows: the body runs only when `raiseInvalid` did not raise. -/
def FileRef.withHandle (s : FileRefState) (f : FileData → Except RubyError α) :
    Except RubyError α :=
  match FileRef.raiseInvalid s with
  | Except.error e => Except.error e
  | Except.ok _ =>
    match s.fileRef with
    | none => Except.error RubyError.invalidHandle
    | some d => f d

/-- Source `FileRef::isReadOnly`: `raiseInvalid()` then the file's read-only
flag. -/
def FileRef.isReadOnlyOp (s : FileRefState) : Except RubyError Bool :=
  FileRef.withHandle s fun d => Except.ok d.fileReadOnly

/-- Source `FileRef::audioProperties`: `raiseInvalid()` then the audio-properties
record (nil when the library returns none). -/
def FileRef.audioPropertiesOp (s : FileRefState) :
    Except RubyError (Option AudioPropertiesData) :=
  FileRef.withHandle s fun d => Except.ok d.audioProps

/-- Source `FileRef::tag`: `raiseInvalid()` then the `AudioTag` record built with
the non-empty/non-zero conversions. -/
def FileRef.tagOp (s : FileRefState) : Except RubyError RubyAudioTag :=
  FileRef.withHandle s fun d =>
    Except.ok
      { title := tagLibStringToNonEmptyRubyUTF8String d.tag.title,
        artist := tagLibStringToNonEmptyRubyUTF8String d.tag.artist,
        album := tagLibStringToNonEmptyRubyUTF8String d.tag.album,
        genre := tagLibStringToNonEmptyRubyUTF8String d.tag.genre,
        year := uintToNonZeroRubyInteger d.tag.year,
        track := uintToNonZeroRubyInteger d.tag.track,
        comment := tagLibStringToNonEmptyRubyUTF8String d.tag.comment }

/-- Source `FileRef::properties`: `raiseInvalid()` then the frozen property
hash. -/
def FileRef.propertiesOp (s : FileRefState) : Except RubyError RHash :=
  FileRef.withHandle s fun d => Except.ok (tagLibPropertyMapToRubyHash d.props)

/-- Source `FileRef::mergeProperties`: `raiseInvalid()` then the merge, storing
the merged map back through `setProperties`. -/
def FileRef.mergePropertiesOp (transcode : List Nat → REnc → List Nat)
    (s : FileRefState) (updates : List (RubyString × RValue)) (replaceAll : Bool) :
    Except RubyError FileRefState :=
  FileRef.withHandle s fun d =>
    match FileRef.mergeProperties transcode d.props updates replaceAll with
    | some pm => Except.ok { s with fileRef := some { d with props := pm } }
    | none => Except.error RubyError.typeError

/-- Source `FileRef::mergeTagProperties`: `raiseInvalid()` then the sequential
field assignments; assignments made before a raised error stay applied, so
the op returns the (possibly partially) updated state together with the
raised error if any. -/
def FileRef.mergeTagPropertiesOp (transcode : List Nat → REnc → List Nat)
    (s : FileRefState) (updates : List (String × RValue)) :
    FileRefState × Option RubyError :=
  match s.fileRef with
  | none => (s, some RubyError.invalidHandle)
  | some d =>
    let r := FileRef.mergeTagProperties transcode d.tag updates
    ({ s with fileRef := some { d with tag := r.1 } }, r.2)

/-- Lookup of a complex-property key in the handle (the library returns an
empty record list for an unknown key). -/
def complexLookup (m : List (TLStr × List (List (TLStr × Variant)))) (k : TLStr) :
    List (List (TLStr × Variant)) :=
  ((m.find? fun e => decide (e.1 = k)).map Prod.snd).getD []

/-- Source `TagLib::File::setComplexProperties(key, list)` at the boundary: the
key's record list is replaced. -/
def complexReplace (m : List (TLStr × List (List (TLStr × Variant)))) (k : TLStr)
    (l : List (List (TLStr × Variant))) : List (TLStr × List (List (TLStr × Variant))) :=
  m.filter (fun e => decide (e.1 ≠ k)) ++ [(k, l)]

/-- Source `rubyObjectToTagLibComplexProperty`: nil/false yield the empty list;
otherwise the value must be an Array of Hashes, each converted through
`rubyHashToTagLibVariantMap` (anything else raises, modelled `none`). -/
def rubyObjectToTagLibComplexProperty (v : RValue) :
    Option (List (List (TLStr × Variant))) :=
  match v with
  | RValue.nil => some []
  | RValue.rbool false => some []
  | RValue.arr items =>
      items.mapM fun it =>
        match it with
        | RValue.hash m => rubyHashToTagLibVariantMap m
        | _ => none
  | _ => none

/-- Source `FileRef::complexPropertyKeys`: `raiseInvalid()` then the library's
key list converted to Ruby strings. -/
def FileRef.complexPropertyKeysOp (s : FileRefState) :
    Except RubyError (List RubyString) :=
  FileRef.withHandle s fun d =>
    Except.ok (tagLibStringListToRuby (d.complexProps.map Prod.fst))

/-- Source `FileRef::complexProperty(key)`: `raiseInvalid()` then the key's
record list converted to Ruby hashes. -/
def FileRef.complexPropertyOp (transcode : List Nat → REnc → List Nat)
    (s : FileRefState) (key : RubyString) :
    Except RubyError (List (List (RubyString × RValue))) :=
  FileRef.withHandle s fun d =>
    Except.ok
      (tagLibComplexPropertyToRuby
        (complexLookup d.complexProps (rubyStringToTagLibString transcode key)))

/-- Source `FileRef::mergeComplexProperties`: `raiseInvalid()`; with
`replace_all` every existing key is first set to the empty record list;
then each update key's list is converted and set. -/
def FileRef.mergeComplexPropertiesOp (transcode : List Nat → REnc → List Nat)
    (s : FileRefState) (updates : List (RubyString × RValue)) (replaceAll : Bool) :
    Except RubyError FileRefState :=
  FileRef.withHandle s fun d =>
    let cleared :=
      if replaceAll then d.complexProps.map (fun e => (e.1, ([] : List (List (TLStr × Variant)))))
      else d.complexProps
    match
      updates.foldlM
        (fun m kv =>
          (rubyObjectToTagLibComplexProperty kv.2).map
            (complexReplace m (rubyStringToTagLibString transcode kv.1)))
        cleared
    with
    | some m => Except.ok { s with fileRef := some { d with complexProps := m } }
    | none => Except.error RubyError.typeError

/-- Source `FileRef::save`: `raiseInvalid()` then the library's save. -/
def FileRef.saveOp (s : FileRefState) : Except RubyError Bool :=
  FileRef.withHandle s fun _ => Except.ok true

/-! ## Spec-side helper for C8 -/

/-- Standard UTF-8 encoding of a Unicode code point, used only to state
what "re-encoded to UTF-8" means on the spec side. -/
def utf8EncodeCodepoint (c : Nat) : List Nat :=
  if c < 128 then [c]
  else if c < 2048 then [192 + c / 64, 128 + c % 64]
  else if c < 65536 then [224 + c / 4096, 128 + c / 64 % 64, 128 + c % 64]
  else [240 + c / 262144, 128 + c / 4096 % 64, 128 + c / 64 % 64, 128 + c % 64]

/-- Spec-side re-encoding of an ISO-8859-1 string to UTF-8: each byte is
its own code point. -/
def spec_latin1ToUTF8 (bytes : List Nat) : List Nat :=
  (bytes.map utf8EncodeCodepoint).flatten

/-- C1: `IOStream::insert` evaluated at the failing input of the claim's
`replaceLength = 0` case: on the resource `[97, 98, 99, 100]`,
`insert([88, 89], startOffset := 1, replaceLength := 0)` leaves the resource
`[97, 88, 89]` — because the remainder is only read when `replace > 0`, the
original tail `[98, 99, 100]` is lost and the result differs from the
splice `resource[0:1] + data + resource[1:]` the claim (and the spec's
emulation description, which reads the remainder unconditionally)
requires. -/
theorem insert_zero_replace_loses_tail :
    (IOStream.insert ⟨[97, 98, 99, 100], 0⟩ [88, 89] 1 0).content = [97, 88, 89] ∧
    specSplice [97, 98, 99, 100] [88, 89] 1 0 = [97, 88, 89, 98, 99, 100] ∧
    (IOStream.insert ⟨[97, 98, 99, 100], 0⟩ [88, 89] 1 0).content ≠
      specSplice [97, 98, 99, 100] [88, 89] 1 0 := by
  decide

/-- C2: for every resource content and in-bounds `startOffset` and `length`,
`IOStream::removeBlock(startOffset, length)` leaves the resource holding
exactly `resource[0:startOffset] + resource[startOffset+length:]`. -/
theorem removeBlock_splices (s : RStream) (start len : Nat)
    (h : start + len ≤ s.content.length) :
    (IOStream.removeBlock s start len).content =
      s.content.take start ++ s.content.drop (start + len) := by
  obtain ⟨c, p⟩ := s
  dsimp only at h
  simp only [IOStream.removeBlock, RStream.seekSet, RStream.readAll, RStream.write,
    RStream.truncate, List.length_drop]
  have h0 : start - c.length = 0 := by omega
  rw [h0, List.replicate_zero, List.append_nil]
  have key : start + (c.length - (start + len)) =
      (c.take start ++ c.drop (start + len)).length := by
    simp only [List.length_append, List.length_take, List.length_drop]
    omega
  rw [key, List.take_left]
  have hz : (c.take start ++ c.drop (start + len)).length -
      ((c.take start ++ c.drop (start + len)) ++
        c.drop ((c.take start ++ c.drop (start + len)).length)).length = 0 := by
    simp only [List.length_append, List.length_take, List.length_drop]
    omega
  rw [hz, List.replicate_zero, List.append_nil]

theorem removeBlock_splices_witness :
    1 + 2 ≤ (RStream.mk [1, 2, 3, 4, 5] 0).content.length ∧
    (IOStream.removeBlock ⟨[1, 2, 3, 4, 5], 0⟩ 1 2).content = [1, 4, 5] :=
  ⟨by decide, (removeBlock_splices ⟨[1, 2, 3, 4, 5], 0⟩ 1 2 (by decide)).trans (by decide)⟩

/-- C3: `readOnly()` evaluated at the failing input — a resource that does
respond to `writable?` and answers true (i.e. one that declares itself
writable): the adapter caches `respond_to && writable?` in `openReadOnly`
without negating it, so `readOnly()` answers `true` for exactly the
resources that declared themselves writable, the opposite of the claim
(and of the member's own name and constructor comment). -/
theorem readOnly_reports_writable :
    IOStream.readOnly (IOStream.init ⟨true, true⟩) = true ∧
    spec_declaredWritable ⟨true, true⟩ = true := by
  decide

theorem rubyVariantListAux_eq_mapM (l : List RValue) :
    rubyVariantListAux l = l.mapM rubyObjectToTagLibVariant := by
  induction l with
  | nil => rw [List.mapM_nil]; simp [rubyVariantListAux]
  | cons v vs ih => rw [List.mapM_cons, ← ih]; simp [rubyVariantListAux]

theorem byteVectorList_of_strings (ss : List RubyString) :
    rubyArrayToTagLibByteVectorList (ss.map RValue.str) =
      some (ss.map RubyString.bytes) := by
  induction ss with
  | nil => rfl
  | cons s ss ih =>
    unfold rubyArrayToTagLibByteVectorList at ih ⊢
    rw [List.map_cons, List.mapM_cons, ih]
    rfl

theorem stringList_of_strings (ss : List RubyString) :
    rubyArrayToTagLibStringList (ss.map RValue.str) =
      some (ss.map fun t => (⟨cstr t.bytes, TEnc.utf8⟩ : TLStr)) := by
  induction ss with
  | nil => rfl
  | cons s ss ih =>
    unfold rubyArrayToTagLibStringList at ih ⊢
    rw [List.map_cons, List.mapM_cons, ih]
    rfl

/-- C4: the dynamic-to-typed conversion of an array decides the whole
array's shape from its first element only: an empty array becomes the
empty variant; a binary-encoded first string makes the entire array a
`ByteVectorList` (every later string — binary or not — contributes its raw
bytes); a non-binary first string makes the entire array a `StringList`;
any other first element makes the array a `List<Variant>` with each
element converted independently. -/
theorem rubyArrayToTagLibVariant_first_element_decides :
    rubyArrayToTagLibVariant [] = some Variant.empty ∧
    (∀ (s : RubyString) (ss : List RubyString), isBinaryEncoding s = true →
      rubyArrayToTagLibVariant (RValue.str s :: ss.map RValue.str) =
        some (Variant.vbyteVectorList (s.bytes :: ss.map RubyString.bytes))) ∧
    (∀ (s : RubyString) (ss : List RubyString), isBinaryEncoding s = false →
      rubyArrayToTagLibVariant (RValue.str s :: ss.map RValue.str) =
        some (Variant.vstringList
          (⟨cstr s.bytes, TEnc.utf8⟩ :: ss.map fun t => (⟨cstr t.bytes, TEnc.utf8⟩ : TLStr)))) ∧
    (∀ (v : RValue) (vs : List RValue), (∀ s, v ≠ RValue.str s) →
      rubyArrayToTagLibVariant (v :: vs) =
        ((v :: vs).mapM rubyObjectToTagLibVariant).map Variant.vvariantList) := by
  refine ⟨by simp [rubyArrayToTagLibVariant], ?_, ?_, ?_⟩
  · intro s ss h
    have hb := byteVectorList_of_strings (s :: ss)
    simp only [List.map_cons] at hb
    simp [rubyArrayToTagLibVariant, h, hb]
  · intro s ss h
    have hb := stringList_of_strings (s :: ss)
    simp only [List.map_cons] at hb
    simp [rubyArrayToTagLibVariant, h, hb]
  · intro v vs h
    rw [← rubyVariantListAux_eq_mapM]
    cases v with
    | str s => exact absurd rfl (h s)
    | nil => simp [rubyArrayToTagLibVariant]
    | rbool b => simp [rubyArrayToTagLibVariant]
    | int n => simp [rubyArrayToTagLibVariant]
    | arr items => simp [rubyArrayToTagLibVariant]
    | hash entries => simp [rubyArrayToTagLibVariant]
    | other => simp [rubyArrayToTagLibVariant]

theorem rubyArrayToTagLibVariant_first_element_decides_witness :
    rubyArrayToTagLibVariant [RValue.str ⟨[1], REnc.ascii8bit⟩, RValue.str ⟨[2], REnc.utf8⟩] =
      some (Variant.vbyteVectorList [[1], [2]]) :=
  rubyArrayToTagLibVariant_first_element_decides.2.1
    ⟨[1], REnc.ascii8bit⟩ [⟨[2], REnc.utf8⟩] (by decide)

theorem setTagField_unknown (transcode : List Nat → REnc → List Nat)
    (t : AudioTag) (k : String) (v : RValue) (hk : isTagKey k = false) :
    setTagField transcode t k v = Except.error (RubyError.keyError k) := by
  unfold setTagField
  split_ifs with h1 h2 h3 h4 h5 h6 h7
  · subst h1; simp [isTagKey] at hk
  · subst h2; simp [isTagKey] at hk
  · subst h3; simp [isTagKey] at hk
  · subst h4; simp [isTagKey] at hk
  · subst h5; simp [isTagKey] at hk
  · subst h6; simp [isTagKey] at hk
  · subst h7; simp [isTagKey] at hk
  · rfl

/-- C5: `mergeTagProperties` accepts only the closed key set
{title, artist, album, comment, genre, year, track}: a prefix of
recognized, convertible updates applies cleanly, and the same prefix
followed by an unrecognized key raises `KeyError` for that key while every
assignment made for the prefix stays applied (no rollback), whatever
entries follow the offending key. -/
theorem mergeTagProperties_closed_keys (transcode : List Nat → REnc → List Nat)
    (t t' : AudioTag) (good : List (String × RValue)) (k : String) (v : RValue)
    (rest : List (String × RValue))
    (hk : isTagKey k = false)
    (hgood : applyTagUpdates transcode t good = some t') :
    FileRef.mergeTagProperties transcode t good = (t', none) ∧
    FileRef.mergeTagProperties transcode t (good ++ (k, v) :: rest) =
      (t', some (RubyError.keyError k)) := by
  induction good generalizing t with
  | nil =>
    simp only [applyTagUpdates, List.foldlM_nil, Option.pure_def,
      Option.some.injEq] at hgood
    subst hgood
    refine ⟨rfl, ?_⟩
    simp only [List.nil_append]
    simp [FileRef.mergeTagProperties, setTagField_unknown transcode t k v hk]
  | cons p good' ih =>
    obtain ⟨k0, v0⟩ := p
    simp only [applyTagUpdates, List.foldlM_cons] at hgood
    cases hs : setTagField transcode t k0 v0 with
    | error e => simp [hs, Except.toOption] at hgood
    | ok t1 =>
      rw [hs] at hgood
      simp only [Except.toOption] at hgood
      have hgood' : applyTagUpdates transcode t1 good' = some t' := hgood
      have hih := ih t1 hgood'
      constructor
      · simp [FileRef.mergeTagProperties, hs, hih.1]
      · simp only [List.cons_append]
        simp [FileRef.mergeTagProperties, hs, hih.2]

theorem mergeTagProperties_closed_keys_witness :
    FileRef.mergeTagProperties (fun b _ => b)
        ⟨⟨[], TEnc.utf8⟩, ⟨[], TEnc.utf8⟩, ⟨[], TEnc.utf8⟩, ⟨[], TEnc.utf8⟩,
          ⟨[], TEnc.utf8⟩, 0, 0⟩
        [("title", RValue.str ⟨[104], REnc.utf8⟩), ("bogus", RValue.nil)] =
      (⟨⟨[104], TEnc.utf8⟩, ⟨[], TEnc.utf8⟩, ⟨[], TEnc.utf8⟩, ⟨[], TEnc.utf8⟩,
          ⟨[], TEnc.utf8⟩, 0, 0⟩,
        some (RubyError.keyError "bogus")) :=
  (mergeTagProperties_closed_keys (fun b _ => b)
      ⟨⟨[], TEnc.utf8⟩, ⟨[], TEnc.utf8⟩, ⟨[], TEnc.utf8⟩, ⟨[], TEnc.utf8⟩,
        ⟨[], TEnc.utf8⟩, 0, 0⟩
      ⟨⟨[104], TEnc.utf8⟩, ⟨[], TEnc.utf8⟩, ⟨[], TEnc.utf8⟩, ⟨[], TEnc.utf8⟩,
        ⟨[], TEnc.utf8⟩, 0, 0⟩
      [("title", RValue.str ⟨[104], REnc.utf8⟩)] "bogus" RValue.nil []
      (by decide) (by decide)).2

/-- C6: after any `mergeProperties` call (any updates, either `replace_all`
value), no key of the property map handed to `setProperties` is bound to
an empty sequence: `removeEmpty()` runs after all per-key replacements. -/
theorem mergeProperties_no_empty_values (transcode : List Nat → REnc → List Nat)
    (current : PropertyMap) (updates : List (RubyString × RValue))
    (replaceAll : Bool) (pm : PropertyMap) (k : TLStr) (l : List TLStr)
    (hres : FileRef.mergeProperties transcode current updates replaceAll = some pm)
    (hmem : (k, l) ∈ pm) : l ≠ [] := by
  unfold FileRef.mergeProperties at hres
  dsimp only at hres
  cases hf :
      updates.foldlM
        (fun pm kv =>
          (rubyObjectToTagLibStringList kv.2).map
            (PropertyMap.replaceKey pm (rubyStringToTagLibString transcode kv.1)))
        (if replaceAll then [] else current) with
  | none => rw [hf] at hres; simp at hres
  | some pm0 =>
    rw [hf] at hres
    have hres' : PropertyMap.removeEmpty pm0 = pm := by simpa using hres
    subst hres'
    have := List.of_mem_filter hmem
    simpa using this

theorem mergeProperties_no_empty_values_witness :
    ([⟨[120], TEnc.utf8⟩] : List TLStr) ≠ [] :=
  mergeProperties_no_empty_values (fun b _ => b)
    [(⟨[107], TEnc.utf8⟩, [⟨[120], TEnc.utf8⟩])] [] false
    [(⟨[107], TEnc.utf8⟩, [⟨[120], TEnc.utf8⟩])]
    ⟨[107], TEnc.utf8⟩ [⟨[120], TEnc.utf8⟩]
    (by decide) (by decide)

/-- C7: absence of an optional tag field is stable under one round trip:
a zero-length `TagLib::String` converts to nil and a zero unsigned integer
converts to nil in the typed-to-dynamic query direction, while nil converts
back to the empty UTF-8 string and to zero in the dynamic-to-typed merge
direction. -/
theorem absence_round_trip (transcode : List Nat → REnc → List Nat)
    (s : TLStr) (n : Nat) (hs : s.bytes = []) (hn : n = 0) :
    tagLibStringToNonEmptyRubyUTF8String s = RValue.nil ∧
    uintToNonZeroRubyInteger n = RValue.nil ∧
    rubyStringOrNilToTagLibString transcode RValue.nil = some ⟨[], TEnc.utf8⟩ ∧
    rubyIntegerOrNilToUInt RValue.nil = some 0 := by
  refine ⟨?_, ?_, rfl, rfl⟩
  · simp [tagLibStringToNonEmptyRubyUTF8String, hs]
  · simp [uintToNonZeroRubyInteger, hn]

theorem absence_round_trip_witness :
    tagLibStringToNonEmptyRubyUTF8String ⟨[], TEnc.utf8⟩ = RValue.nil ∧
    uintToNonZeroRubyInteger 0 = RValue.nil ∧
    rubyStringOrNilToTagLibString (fun b _ => b) RValue.nil = some ⟨[], TEnc.utf8⟩ ∧
    rubyIntegerOrNilToUInt RValue.nil = some 0 :=
  absence_round_trip (fun b _ => b) ⟨[], TEnc.utf8⟩ 0 rfl rfl

/-- C8 counterexample: a Latin-1-tagged Ruby string `é` (byte 233) given to
the dynamic-to-typed variant conversion is neither re-encoded to UTF-8
(which would give bytes 195,169) nor passed through tagged Latin-1: the
code returns the original byte tagged UTF-8. -/
theorem rubyStringToTaglibVariant_latin1_not_reencoded :
    rubyStringToTaglibVariant ⟨[233], REnc.latin1⟩ =
      Variant.vstring ⟨[233], TEnc.utf8⟩ ∧
    spec_latin1ToUTF8 [233] = [195, 169] ∧
    ([233] : List Nat) ≠ spec_latin1ToUTF8 [233] ∧
    TEnc.utf8 ≠ TEnc.latin1 :=
  ⟨rfl, by decide, by decide, by decide⟩

/-- C8 (amended): in the variant conversion a binary-tagged string becomes
`Bytes` (all bytes kept) and a string of any other encoding becomes a
`TagLib::String` tagged UTF-8 holding the bytes up to the first NUL with no
re-encoding; the separate tag-field string conversion
(`rubyStringToTagLibString`) never yields `Bytes`: it passes UTF-8,
ASCII-8BIT and US-ASCII through tagged UTF-8, tags ISO-8859-1 as Latin-1
and UTF-16LE/BE as UTF-16LE/BE without re-encoding, and only for every
other encoding (including generic UTF-16) transcodes to UTF-8 via the host
runtime. -/
theorem rubyString_conversion_encoding_rules (transcode : List Nat → REnc → List Nat)
    (s : RubyString) :
    (s.enc = REnc.ascii8bit → rubyStringToTaglibVariant s = Variant.vbytes s.bytes) ∧
    (s.enc ≠ REnc.ascii8bit →
      rubyStringToTaglibVariant s = Variant.vstring ⟨cstr s.bytes, TEnc.utf8⟩) ∧
    (s.enc = REnc.utf8 ∨ s.enc = REnc.ascii8bit ∨ s.enc = REnc.usascii →
      rubyStringToTagLibString transcode s = ⟨cstr s.bytes, TEnc.utf8⟩) ∧
    (s.enc = REnc.latin1 →
      rubyStringToTagLibString transcode s = ⟨cstr s.bytes, TEnc.latin1⟩) ∧
    (s.enc = REnc.utf16le →
      rubyStringToTagLibString transcode s = ⟨cstr s.bytes, TEnc.utf16le⟩) ∧
    (s.enc = REnc.utf16be →
      rubyStringToTagLibString transcode s = ⟨cstr s.bytes, TEnc.utf16be⟩) ∧
    (s.enc = REnc.utf16 ∨ s.enc = REnc.other →
      rubyStringToTagLibString transcode s = ⟨cstr (transcode s.bytes s.enc), TEnc.utf8⟩) := by
  obtain ⟨b, e⟩ := s
  cases e <;>
    simp [rubyStringToTaglibVariant, rubyStringToTagLibString, isBinaryEncoding]

theorem rubyString_conversion_encoding_rules_witness :
    rubyStringToTagLibString (fun b _ => b) ⟨[233], REnc.latin1⟩ =
      ⟨[233], TEnc.latin1⟩ :=
  ((rubyString_conversion_encoding_rules (fun b _ => b)
      ⟨[233], REnc.latin1⟩).2.2.2.1 rfl).trans (by decide)

/-- C9: after `close`, the handle is released and every typed-metadata
operation — tag, audioProperties, properties, mergeProperties,
mergeTagProperties, complexProperty, complexPropertyKeys,
mergeComplexProperties, isReadOnly, save — fails with the invalid-handle
error from the `raiseInvalid` check before anything touches the handle. -/
theorem closed_handle_ops_raise (transcode : List Nat → REnc → List Nat)
    (s : FileRefState) (updates1 : List (RubyString × RValue))
    (updates2 : List (String × RValue)) (key : RubyString) (b : Bool) :
    (FileRef.close s).fileRef = none ∧
    FileRef.tagOp (FileRef.close s) = Except.error RubyError.invalidHandle ∧
    FileRef.audioPropertiesOp (FileRef.close s) = Except.error RubyError.invalidHandle ∧
    FileRef.propertiesOp (FileRef.close s) = Except.error RubyError.invalidHandle ∧
    FileRef.mergePropertiesOp transcode (FileRef.close s) updates1 b =
      Except.error RubyError.invalidHandle ∧
    FileRef.mergeTagPropertiesOp transcode (FileRef.close s) updates2 =
      (FileRef.close s, some RubyError.invalidHandle) ∧
    FileRef.complexPropertyOp transcode (FileRef.close s) key =
      Except.error RubyError.invalidHandle ∧
    FileRef.complexPropertyKeysOp (FileRef.close s) =
      Except.error RubyError.invalidHandle ∧
    FileRef.mergeComplexPropertiesOp transcode (FileRef.close s) updates1 b =
      Except.error RubyError.invalidHandle ∧
    FileRef.isReadOnlyOp (FileRef.close s) = Except.error RubyError.invalidHandle ∧
    FileRef.saveOp (FileRef.close s) = Except.error RubyError.invalidHandle := by
  have hc : (FileRef.close s).fileRef = none := by
    unfold FileRef.close
    cases h : s.fileRef with
    | none => simp [h]
    | some d => simp [h]
  refine ⟨hc, ?_, ?_, ?_, ?_, ?_, ?_, ?_, ?_, ?_, ?_⟩ <;>
    simp [FileRef.tagOp, FileRef.audioPropertiesOp, FileRef.propertiesOp,
      FileRef.mergePropertiesOp, FileRef.mergeTagPropertiesOp,
      FileRef.complexPropertyOp, FileRef.complexPropertyKeysOp,
      FileRef.mergeComplexPropertiesOp, FileRef.isReadOnlyOp, FileRef.saveOp,
      FileRef.withHandle, FileRef.raiseInvalid, FileRef.isValid, hc]

/-- C10: the hash `properties` returns is deeply frozen: the hash itself
carries the frozen flag, every value array in it carries the frozen flag,
and any mutation attempt on the hash or on one of its value arrays fails
with a FrozenError instead of altering it. -/
theorem properties_hash_deeply_frozen (pm : List (TLStr × List TLStr))
    (k v : RubyString) (a : RArray) :
    (tagLibPropertyMapToRubyHash pm).frozen = true ∧
    (∀ e ∈ (tagLibPropertyMapToRubyHash pm).entries,
        e.2.frozen = true ∧ RArray.push e.2 v = Except.error RubyError.frozenError) ∧
    RHash.store (tagLibPropertyMapToRubyHash pm) k a =
      Except.error RubyError.frozenError := by
  refine ⟨rfl, ?_, rfl⟩
  intro e he
  unfold tagLibPropertyMapToRubyHash at he
  simp only [List.mem_map] at he
  obtain ⟨p, _, rfl⟩ := he
  exact ⟨rfl, rfl⟩

theorem properties_hash_deeply_frozen_witness :
    RArray.push ⟨[⟨[120], REnc.utf8⟩], true⟩ ⟨[121], REnc.utf8⟩ =
      Except.error RubyError.frozenError ∧
    RHash.store (tagLibPropertyMapToRubyHash [(⟨[107], TEnc.utf8⟩, [⟨[120], TEnc.utf8⟩])])
        ⟨[107], REnc.utf8⟩ ⟨[], false⟩ =
      Except.error RubyError.frozenError := by
  have h := properties_hash_deeply_frozen [(⟨[107], TEnc.utf8⟩, [⟨[120], TEnc.utf8⟩])]
    ⟨[107], REnc.utf8⟩ ⟨[121], REnc.utf8⟩ ⟨[], false⟩
  exact ⟨(h.2.1 (⟨[107], REnc.utf8⟩, ⟨[⟨[120], REnc.utf8⟩], true⟩) (by decide)).2, h.2.2⟩
